import Mathlib

/-!
Verification of the dining-philosophers program in `src/main.rs`.

The program has three parts, all embedded below:
* `TimeoutLock::try_lock_for` (src/main.rs:26-39), a bounded polling
  acquisition primitive on `std::sync::Mutex`;
* `Philosopher::dine` (src/main.rs:65-103), one acquire/hold/release cycle;
* `main` (src/main.rs:106-151), which wires 5 forks and 5 philosophers into
  a ring and runs each philosopher's thread loop until its counter reaches 6.

Concurrency is embedded by making each lock acquisition a function of what
the other threads let it observe: the unbounded `Mutex::lock()` yields an
`AcqResult`, and one `try_lock_for` call observes a state trace
`Nat → LockState` giving the mutex state seen by its successive `try_lock`
polls.  Real time is discretized at poll granularity: the `try_lock` poll of
loop iteration `j` happens at elapsed time `j * interval`, so the loop guard
`Instant::now() - start < timeout` admits iteration `j` exactly when
`j * interval < timeout` (faithful whenever `interval > 0`; the `println!`
calls and the pacing sleeps compiled out under the `no-timeouts` feature do
not touch any state and are not modelled).
-/

set_option maxHeartbeats 1000000

/-- State of the underlying `std::sync::Mutex` as observed by one
`try_lock` call: acquirable, currently held by another thread, or
poisoned (a previous holder panicked). -/
inductive LockState where
  | free
  | held
  | poisoned
  deriving DecidableEq

/-- Value returned by `try_lock_for` (Rust `TryLockResult`): `Ok(guard)`
(recording which poll succeeded), `Err(TryLockError::Poisoned)` (recording
which poll observed the poisoning), or `Err(TryLockError::WouldBlock)`. -/
inductive LockResult where
  | ok (k : Nat)
  | poisonedAt (k : Nat)
  | wouldBlock
  deriving DecidableEq

/-- Whether a `LockResult` is `Ok(guard)`. -/
def LockResult.isOk : LockResult → Bool
  | LockResult.ok _ => true
  | _ => false

/-- Outcome of one `try_lock_for` call: the returned value, how many
`self.try_lock()` polls ran, and how many `thread::sleep(interval)` calls
ran. -/
structure PollOutcome where
  result : LockResult
  tries : Nat
  sleeps : Nat
  deriving DecidableEq

/-- Number of iterations of the loop
`while Instant::now() - start < timeout` (src/main.rs:29) when iteration `j`
starts at elapsed time `j * interval`: the iterations `j` with
`j * interval < timeout`.  For `interval > 0` this is
`⌈timeout / interval⌉`; for `timeout = 0` it is `0` (the guard `0 < 0` fails
before the first poll). -/
def numPolls (timeout interval : Nat) : Nat :=
  (timeout + interval - 1) / interval

/-- Body of `TimeoutLock::try_lock_for`'s loop (src/main.rs:29-36), run for
a given number of remaining iterations starting at poll index `k`: each
iteration calls `self.try_lock()`, returns on `Ok` or `Poisoned`, and on
`WouldBlock` sleeps for `interval` and continues; when the iterations run
out the call returns `WouldBlock` (src/main.rs:37). -/
def pollLoop (st : Nat → LockState) : Nat → Nat → PollOutcome
  | 0, _ => ⟨LockResult.wouldBlock, 0, 0⟩
  | n + 1, k =>
    match st k with
    | LockState.free => ⟨LockResult.ok k, 1, 0⟩
    | LockState.poisoned => ⟨LockResult.poisonedAt k, 1, 0⟩
    | LockState.held =>
      let r := pollLoop st n (k + 1)
      ⟨r.result, r.tries + 1, r.sleeps + 1⟩

/-- `TimeoutLock::try_lock_for` for `Mutex` (src/main.rs:27-38), as a
function of the mutex-state trace `st` its polls observe. -/
def try_lock_for (timeout interval : Nat) (st : Nat → LockState) : PollOutcome :=
  pollLoop st (numPolls timeout interval) 0

/-- A mutex-state trace is realizable only if poisoning is permanent:
`std::sync::Mutex` poisoning is never cleared in this program. -/
def poisonPersists (st : Nat → LockState) : Prop :=
  ∀ k, st k = LockState.poisoned → st (k + 1) = LockState.poisoned

/-- Value produced by the unbounded `Mutex::lock()` (src/main.rs:71 and 78):
it blocks until it either acquires the lock (`Ok(guard)`) or finds it
poisoned (`Err(PoisonError)`); it cannot time out. -/
inductive AcqResult where
  | ok
  | poisoned
  deriving DecidableEq

/-- `struct Philosopher` (src/main.rs:41-47).  Each `Arc<Mutex<()>>` fork is
identified by its index in `main`'s `forks` array, so cloned `Arc`s of one
fork are the same index. -/
structure Philosopher where
  name : String
  left_fork : Nat
  right_fork : Nat
  is_left_handed : Bool
  counter : Nat
  deriving DecidableEq

/-- `Philosopher::new` (src/main.rs:50-58): the counter starts at 0. -/
def Philosopher.new (name : String) (left_fork right_fork : Nat)
    (is_left_handed : Bool) : Philosopher :=
  ⟨name, left_fork, right_fork, is_left_handed, 0⟩

/-- The fork `dine` locks with the unbounded `lock()` (src/main.rs:70-84):
the left fork when `is_left_handed`, otherwise the right fork. -/
def primaryFork (p : Philosopher) : Nat :=
  if p.is_left_handed then p.left_fork else p.right_fork

/-- The fork `dine` attempts with
`try_lock_for(Duration::from_millis(100), Duration::from_millis(10))`
(src/main.rs:72-75 and 79-82): the right fork when `is_left_handed`,
otherwise the left fork. -/
def secondaryFork (p : Philosopher) : Nat :=
  if p.is_left_handed then p.right_fork else p.left_fork

/-- Environment of one `dine` call, i.e. what the other threads let its two
acquisitions observe: the outcome of the unbounded `lock()` on the primary
fork, and the secondary fork's state at each `try_lock` poll of the bounded
attempt. -/
structure DineEnv where
  primary : AcqResult
  secondary : Nat → LockState

/-- The test `if let (Ok(_), Ok(_)) = locks` of `dine` (src/main.rs:87):
the philosopher eats exactly when the unbounded acquisition returned `Ok`
and the bounded `try_lock_for(100, 10)` on the secondary fork returned
`Ok`. -/
def dineSuccess (env : DineEnv) : Bool :=
  match env.primary, (try_lock_for 100 10 env.secondary).result with
  | AcqResult.ok, LockResult.ok _ => true
  | _, _ => false

/-- State effect of `Philosopher::dine` (src/main.rs:65-103): on the
success branch `self.counter += 1` (src/main.rs:92); on the failure branch
the state is unchanged.  The `println!` calls and the pacing sleeps
(compiled out under the `no-timeouts` feature) touch no state. -/
def Philosopher.dine (p : Philosopher) (env : DineEnv) : Philosopher :=
  if dineSuccess env then { p with counter := p.counter + 1 } else p

/-- Lock-relevant events of one `dine` call, in program order.
`releaseGuards` models the end-of-scope drop of the `locks` tuple at
src/main.rs:103, the single place where every guard the tuple holds (a
successfully acquired guard, or one carried inside a `PoisonError`) is
released. -/
inductive Ev where
  | lockUnbounded (fork : Nat) (res : AcqResult)
  | tryPoll (fork : Nat) (k : Nat)
  | eat
  | releaseGuards
  deriving DecidableEq

/-- Event trace of one `dine` call (src/main.rs:70-103): first the
unbounded `lock()` on the primary fork, then one `tryPoll` per `try_lock`
poll that `try_lock_for(100, 10)` makes on the secondary fork, then `eat`
exactly on the success branch, and finally the single end-of-scope release
of the `locks` tuple — on both branches. -/
def dineEvents (p : Philosopher) (env : DineEnv) : List Ev :=
  Ev.lockUnbounded (primaryFork p) env.primary
    :: ((List.range (try_lock_for 100 10 env.secondary).tries).map
          (fun k => Ev.tryPoll (secondaryFork p) k)
        ++ ((if dineSuccess env then [Ev.eat] else []) ++ [Ev.releaseGuards]))

/-- The bounded secondary acquisition failed, with either
`TryLockError::WouldBlock` or `TryLockError::Poisoned`. -/
def secondaryFailed (env : DineEnv) : Bool :=
  !(try_lock_for 100 10 env.secondary).result.isOk

/-- One iteration of the per-philosopher thread loop (src/main.rs:132-137):
`break` when the counter has reached 6, otherwise run `dine`. -/
def loopStep (p : Philosopher) (env : DineEnv) : Philosopher :=
  if p.counter = 6 then p else p.dine env

/-- State of a philosopher after `n` iterations of its thread loop, where
`envs m` is what the `m`-th iteration's lock acquisitions observe. -/
def loopTrace (envs : Nat → DineEnv) (p0 : Philosopher) : Nat → Philosopher
  | 0 => p0
  | n + 1 => loopStep (loopTrace envs p0 n) (envs n)

/-- The five forks of `main` (src/main.rs:108-114), identified by index. -/
def forks : List Nat := [0, 1, 2, 3, 4]

/-- The five philosophers of `main` (src/main.rs:116-123); the fifth one is
left-handed. -/
def philosophers : List Philosopher :=
  [Philosopher.new "Filósofo 1" 0 1 false,
   Philosopher.new "Filósofo 2" 1 2 false,
   Philosopher.new "Filósofo 3" 2 3 false,
   Philosopher.new "Filósofo 4" 3 4 false,
   Philosopher.new "Filósofo 5" 4 0 true]

theorem lt_numPolls_iff {timeout interval j : Nat} (hI : 0 < interval) :
    j < numPolls timeout interval ↔ j * interval < timeout := by
  unfold numPolls
  rw [Nat.lt_iff_add_one_le, Nat.le_div_iff_mul_le hI, Nat.add_one_mul]
  generalize j * interval = a
  omega

theorem numPolls_zero (interval : Nat) : numPolls 0 interval = 0 := by
  unfold numPolls
  cases interval with
  | zero => rfl
  | succ i => exact Nat.div_eq_of_lt (by omega)

theorem pollLoop_tries_le (st : Nat → LockState) (n k : Nat) :
    (pollLoop st n k).tries ≤ n := by
  induction n generalizing k with
  | zero => exact Nat.le_refl 0
  | succ n ih =>
    unfold pollLoop
    cases hst : st k with
    | free => simp
    | poisoned => simp
    | held =>
      show (pollLoop st n (k + 1)).tries + 1 ≤ n + 1
      exact Nat.succ_le_succ (ih (k + 1))

theorem pollLoop_allHeld (st : Nat → LockState) (n k : Nat)
    (h : ∀ j, j < n → st (k + j) = LockState.held) :
    pollLoop st n k = ⟨LockResult.wouldBlock, n, n⟩ := by
  induction n generalizing k with
  | zero => rfl
  | succ n ih =>
    have h0 : st k = LockState.held := by simpa using h 0 (Nat.succ_pos n)
    have hrest : ∀ j, j < n → st (k + 1 + j) = LockState.held := by
      intro j hj
      have := h (j + 1) (Nat.succ_lt_succ hj)
      rwa [show k + (j + 1) = k + 1 + j by omega] at this
    unfold pollLoop
    rw [h0]
    show (⟨(pollLoop st n (k + 1)).result, (pollLoop st n (k + 1)).tries + 1,
        (pollLoop st n (k + 1)).sleeps + 1⟩ : PollOutcome) = _
    rw [ih (k + 1) hrest]

theorem pollLoop_free (st : Nat → LockState) (n k j : Nat)
    (hj : j < n) (hfree : st (k + j) = LockState.free)
    (hnp : ∀ i, i < j → st (k + i) ≠ LockState.poisoned) :
    (pollLoop st n k).result.isOk = true := by
  induction n generalizing k j with
  | zero => omega
  | succ n ih =>
    unfold pollLoop
    cases hst : st k with
    | free => rfl
    | poisoned =>
      cases j with
      | zero =>
        rw [Nat.add_zero] at hfree
        rw [hst] at hfree
        exact LockState.noConfusion hfree
      | succ j =>
        exact absurd hst (by simpa using hnp 0 (Nat.succ_pos j))
    | held =>
      cases j with
      | zero =>
        rw [Nat.add_zero] at hfree
        rw [hst] at hfree
        exact LockState.noConfusion hfree
      | succ j =>
        show (pollLoop st n (k + 1)).result.isOk = true
        refine ih (k + 1) j (by omega) ?_ ?_
        · rwa [show k + 1 + j = k + (j + 1) by omega]
        · intro i hi
          have := hnp (i + 1) (Nat.succ_lt_succ hi)
          rwa [show k + (i + 1) = k + 1 + i by omega] at this

theorem pollLoop_poisoned (st : Nat → LockState) (n k j : Nat)
    (hj : j < n) (hp : st (k + j) = LockState.poisoned)
    (hheld : ∀ i, i < j → st (k + i) = LockState.held) :
    pollLoop st n k = ⟨LockResult.poisonedAt (k + j), j + 1, j⟩ := by
  induction n generalizing k j with
  | zero => omega
  | succ n ih =>
    cases j with
    | zero =>
      rw [Nat.add_zero] at hp
      unfold pollLoop
      rw [hp]
      simp
    | succ j =>
      have h0 : st k = LockState.held := by simpa using hheld 0 (Nat.succ_pos j)
      have hrec : pollLoop st n (k + 1) = ⟨LockResult.poisonedAt (k + 1 + j), j + 1, j⟩ := by
        refine ih (k + 1) j (by omega) ?_ ?_
        · rwa [show k + 1 + j = k + (j + 1) by omega]
        · intro i hi
          have := hheld (i + 1) (Nat.succ_lt_succ hi)
          rwa [show k + (i + 1) = k + 1 + i by omega] at this
      unfold pollLoop
      rw [h0]
      show (⟨(pollLoop st n (k + 1)).result, (pollLoop st n (k + 1)).tries + 1,
          (pollLoop st n (k + 1)).sleeps + 1⟩ : PollOutcome) = _
      rw [hrec]
      show (⟨LockResult.poisonedAt (k + 1 + j), j + 1 + 1, j + 1⟩ : PollOutcome) = _
      rw [show k + 1 + j = k + (j + 1) by omega]

theorem poison_forever {st : Nat → LockState} (hp : poisonPersists st)
    (i m : Nat) (him : i ≤ m) (hpi : st i = LockState.poisoned) :
    st m = LockState.poisoned := by
  induction m with
  | zero =>
    have : i = 0 := Nat.le_zero.mp him
    rwa [this] at hpi
  | succ m ih =>
    rcases Nat.lt_or_ge i (m + 1) with hlt | hge
    · exact hp m (ih (Nat.lt_succ_iff.mp hlt))
    · have : i = m + 1 := Nat.le_antisymm him hge
      rwa [this] at hpi

theorem no_poison_before_free {st : Nat → LockState} (hp : poisonPersists st)
    {i j : Nat} (hij : i < j) (hfree : st j = LockState.free) :
    st i ≠ LockState.poisoned := by
  intro hpi
  have := poison_forever hp i j (Nat.le_of_lt hij) hpi
  rw [hfree] at this
  exact LockState.noConfusion this

/-- Claim C5: for every timeout `T > 0` and poll interval `I > 0`, on a
realizable mutex trace (poisoning is permanent), `try_lock_for(T, I)`
returns `Ok` with the guard if the underlying lock is free at some poll `j`
(0-based; the spec's 1-based poll `N = j + 1` satisfies `N·I ≤ T`), and
returns `WouldBlock` if the lock is held at every poll the timeout window
admits. -/
theorem try_lock_for_bounded_wait (timeout interval : Nat) (st : Nat → LockState)
    (hI : 0 < interval) (hT : 0 < timeout) (hpers : poisonPersists st) :
    ((∃ j, (j + 1) * interval ≤ timeout ∧ st j = LockState.free) →
      (try_lock_for timeout interval st).result.isOk = true)
    ∧ ((∀ j, j < numPolls timeout interval → st j = LockState.held) →
      (try_lock_for timeout interval st).result = LockResult.wouldBlock) := by
  constructor
  · rintro ⟨j, hjT, hfree⟩
    have hjn : j < numPolls timeout interval := by
      rw [lt_numPolls_iff hI]
      rw [Nat.add_one_mul] at hjT
      exact Nat.lt_of_lt_of_le (Nat.lt_add_of_pos_right hI) hjT
    exact pollLoop_free st (numPolls timeout interval) 0 j hjn
      (by simpa using hfree)
      (fun i hi => by simpa using no_poison_before_free hpers hi hfree)
  · intro hheld
    have h := pollLoop_allHeld st (numPolls timeout interval) 0
      (fun j hj => by simpa using hheld j hj)
    unfold try_lock_for
    rw [h]

theorem try_lock_for_bounded_wait_witness :
    ((try_lock_for 100 10
        (fun j => if j < 3 then LockState.held else LockState.free)).result.isOk = true)
    ∧ ((try_lock_for 100 10 (fun _ => LockState.held)).result = LockResult.wouldBlock) := by
  constructor
  · exact (try_lock_for_bounded_wait 100 10
        (fun j => if j < 3 then LockState.held else LockState.free)
        (by decide) (by decide)
        (fun k h => by by_cases hk : k < 3 <;> simp [hk] at h)).1
      ⟨3, by decide, by decide⟩
  · exact (try_lock_for_bounded_wait 100 10 (fun _ => LockState.held)
        (by decide) (by decide)
        (fun k h => LockState.noConfusion h)).2
      (fun j hj => rfl)

/-- Claim C6, amended: for every poll interval, `try_lock_for` called with
timeout = 0 performs zero tries of the underlying lock (the loop guard
`Instant::now() - start < timeout` is already false, so it does not even
try once) and returns `WouldBlock` immediately without sleeping, whatever
the lock's state. -/
theorem try_lock_for_zero_timeout (interval : Nat) (st : Nat → LockState) :
    try_lock_for 0 interval st = ⟨LockResult.wouldBlock, 0, 0⟩ := by
  unfold try_lock_for
  rw [numPolls_zero]
  rfl

/-- Claim C6, counterexample: at timeout 0, interval 10, with the lock free
the whole time, the code performs zero `try_lock` polls — not exactly one;
had it performed one immediate try it would have returned `Ok`, but it
returns `WouldBlock`. -/
theorem try_lock_for_zero_timeout_counterexample :
    (try_lock_for 0 10 (fun _ => LockState.free)).tries = 0
    ∧ ¬ (try_lock_for 0 10 (fun _ => LockState.free)).tries = 1
    ∧ (try_lock_for 0 10 (fun _ => LockState.free)).result = LockResult.wouldBlock :=
  ⟨rfl, by decide, rfl⟩

theorem try_lock_for_zero_timeout_witness :
    try_lock_for 0 10 (fun _ => LockState.held) = ⟨LockResult.wouldBlock, 0, 0⟩ :=
  try_lock_for_zero_timeout 10 (fun _ => LockState.held)

/-- Claim C8: if polls `0, …, j-1` find the lock held and poll `j` (still
inside the timeout window, `j * interval < timeout`) observes poisoning,
`try_lock_for` returns the `Poisoned` error at that very poll — `j + 1`
tries and `j` sleeps in total, not polling on until the timeout; with
`j = 0` (lock already poisoned) it returns on the first poll.  Since
poisoning is permanent, every future bounded attempt's first poll observes
it, so the error propagates to every future `try_lock_for` call. -/
theorem try_lock_for_poison_propagation (timeout interval j : Nat)
    (st : Nat → LockState) (hI : 0 < interval) (hj : j * interval < timeout)
    (hp : st j = LockState.poisoned)
    (hheld : ∀ i, i < j → st i = LockState.held) :
    try_lock_for timeout interval st = ⟨LockResult.poisonedAt j, j + 1, j⟩ := by
  have hjn : j < numPolls timeout interval := (lt_numPolls_iff hI).mpr hj
  have h := pollLoop_poisoned st (numPolls timeout interval) 0 j hjn
    (by simpa using hp) (fun i hi => by simpa using hheld i hi)
  unfold try_lock_for
  simpa using h

theorem try_lock_for_poison_propagation_witness :
    try_lock_for 100 10 (fun k => if k < 2 then LockState.held else LockState.poisoned)
      = ⟨LockResult.poisonedAt 2, 3, 2⟩ :=
  try_lock_for_poison_propagation 100 10 2
    (fun k => if k < 2 then LockState.held else LockState.poisoned)
    (by decide) (by decide) (by decide) (by decide)

theorem dineSuccess_false_of_secondaryFailed (env : DineEnv)
    (h : secondaryFailed env = true) : dineSuccess env = false := by
  unfold secondaryFailed at h
  unfold dineSuccess
  cases hpr : env.primary <;>
    cases hres : (try_lock_for 100 10 env.secondary).result <;>
    simp_all [LockResult.isOk]

theorem dineSuccess_false_of_primary_poisoned (env : DineEnv)
    (h : env.primary = AcqResult.poisoned) : dineSuccess env = false := by
  unfold dineSuccess
  rw [h]

theorem dine_fixes_state_of_failure (p : Philosopher) (env : DineEnv)
    (hs : dineSuccess env = false) : p.dine env = p := by
  unfold Philosopher.dine
  simp [hs]

theorem eat_not_mem_of_failure (p : Philosopher) (env : DineEnv)
    (hs : dineSuccess env = false) : Ev.eat ∉ dineEvents p env := by
  unfold dineEvents
  simp [hs]

theorem dineEvents_release_last (p : Philosopher) (env : DineEnv) :
    ∃ l, dineEvents p env = l ++ [Ev.releaseGuards] ∧ Ev.releaseGuards ∉ l := by
  refine ⟨Ev.lockUnbounded (primaryFork p) env.primary
      :: ((List.range (try_lock_for 100 10 env.secondary).tries).map
            (fun k => Ev.tryPoll (secondaryFork p) k)
          ++ (if dineSuccess env then [Ev.eat] else [])), ?_, ?_⟩
  · unfold dineEvents
    simp [List.append_assoc]
  · cases hs : dineSuccess env <;> simp [hs]

theorem dineEvents_head (p : Philosopher) (env : DineEnv) :
    (dineEvents p env)[0]? = some (Ev.lockUnbounded (primaryFork p) env.primary) := by
  simp [dineEvents]

theorem dineEvents_poll_at (p : Philosopher) (env : DineEnv) (m : Nat)
    (hm : m < (try_lock_for 100 10 env.secondary).tries) :
    (dineEvents p env)[m + 1]? = some (Ev.tryPoll (secondaryFork p) m) := by
  unfold dineEvents
  rw [List.getElem?_cons_succ]
  rw [List.getElem?_append_left (by simpa using hm)]
  simp [List.getElem?_range hm]

theorem dineEvents_poll_inv (p : Philosopher) (env : DineEnv) (i f k : Nat)
    (h : (dineEvents p env)[i]? = some (Ev.tryPoll f k)) :
    1 ≤ i ∧ i - 1 < (try_lock_for 100 10 env.secondary).tries
      ∧ f = secondaryFork p ∧ k = i - 1 := by
  cases i with
  | zero => simp [dineEvents] at h
  | succ m =>
    rcases Nat.lt_or_ge m (try_lock_for 100 10 env.secondary).tries with hm | hm
    · rw [dineEvents_poll_at p env m hm] at h
      simp only [Option.some.injEq, Ev.tryPoll.injEq] at h
      exact ⟨Nat.succ_le_succ (Nat.zero_le m), by omega, h.1.symm, by omega⟩
    · exfalso
      unfold dineEvents at h
      rw [List.getElem?_cons_succ] at h
      rw [List.getElem?_append_right (by simpa using hm)] at h
      have hmem := List.getElem?_mem h
      cases hs : dineSuccess env <;> simp [hs] at hmem

/-- Claim C3: within every dine cycle, every `try_lock` poll on the
secondary fork happens strictly after the primary fork's unbounded
acquisition and strictly before any guard release (the primary's guard is
never dropped before or between polls), and both guards are released
together by the single end-of-scope drop, which is the last event of the
cycle on the success branch and the failure branch alike. -/
theorem dine_holds_primary_throughout (p : Philosopher) (env : DineEnv) :
    (∀ (i f k : Nat), (dineEvents p env)[i]? = some (Ev.tryPoll f k) →
      (∃ j : Nat, j < i ∧ (dineEvents p env)[j]? =
        some (Ev.lockUnbounded (primaryFork p) env.primary))
      ∧ (∀ j : Nat, j ≤ i → (dineEvents p env)[j]? ≠ some Ev.releaseGuards))
    ∧ (∃ l, dineEvents p env = l ++ [Ev.releaseGuards]
        ∧ Ev.releaseGuards ∉ l) := by
  constructor
  · intro i f k h
    obtain ⟨h1, h2, -, -⟩ := dineEvents_poll_inv p env i f k h
    constructor
    · exact ⟨0, h1, dineEvents_head p env⟩
    · intro j hj
      cases j with
      | zero =>
        rw [dineEvents_head p env]
        simp
      | succ q =>
        have hq : q < (try_lock_for 100 10 env.secondary).tries := by omega
        rw [dineEvents_poll_at p env q hq]
        simp
  · exact dineEvents_release_last p env

theorem dine_holds_primary_throughout_witness :
    ∃ l, dineEvents (Philosopher.new "a" 0 1 false)
        ⟨AcqResult.ok, fun _ => LockState.free⟩ = l ++ [Ev.releaseGuards]
      ∧ Ev.releaseGuards ∉ l :=
  (dine_holds_primary_throughout (Philosopher.new "a" 0 1 false)
    ⟨AcqResult.ok, fun _ => LockState.free⟩).2

/-- Claim C4: in every dine cycle the first event is the unbounded `lock()`
on the right fork for a normal philosopher and on the left fork for the
left-handed one; every bounded poll targets the other fork and comes after
that first event; and the bounded attempt's 100 ms timeout with 10 ms poll
interval admits at most `numPolls 100 10 = 10` polls. -/
theorem dine_acquisition_order (p : Philosopher) (env : DineEnv) :
    ((dineEvents p env)[0]? = some (Ev.lockUnbounded
        (if p.is_left_handed then p.left_fork else p.right_fork) env.primary))
    ∧ (∀ (i f k : Nat), (dineEvents p env)[i]? = some (Ev.tryPoll f k) →
        f = (if p.is_left_handed then p.right_fork else p.left_fork) ∧ 1 ≤ i)
    ∧ (try_lock_for 100 10 env.secondary).tries ≤ numPolls 100 10
    ∧ numPolls 100 10 = 10 := by
  refine ⟨?_, ?_, ?_, by decide⟩
  · simpa [primaryFork] using dineEvents_head p env
  · intro i f k h
    obtain ⟨h1, -, hf, -⟩ := dineEvents_poll_inv p env i f k h
    refine ⟨?_, h1⟩
    rw [hf]
    rfl
  · exact pollLoop_tries_le env.secondary (numPolls 100 10) 0

theorem dine_acquisition_order_witness :
    (dineEvents (Philosopher.new "a" 0 1 false)
        ⟨AcqResult.ok, fun _ => LockState.free⟩)[0]?
      = some (Ev.lockUnbounded 1 AcqResult.ok) := by
  have h := (dine_acquisition_order (Philosopher.new "a" 0 1 false)
    ⟨AcqResult.ok, fun _ => LockState.free⟩).1
  simpa [Philosopher.new] using h

/-- Claim C7: whenever the bounded secondary acquisition fails — with
`WouldBlock` or with `Poisoned` alike — the cycle does not increment the
counter (the state is exactly the one before the cycle, identically for
both failure kinds), no `eat` happens, and the guards are still released by
the one end-of-scope drop that closes the cycle. -/
theorem dine_failure_uniform (p : Philosopher) (env env' : DineEnv)
    (h : secondaryFailed env = true) (h' : secondaryFailed env' = true) :
    p.dine env = p ∧ p.dine env' = p ∧ p.dine env = p.dine env'
    ∧ Ev.eat ∉ dineEvents p env ∧ Ev.eat ∉ dineEvents p env'
    ∧ (∃ l, dineEvents p env = l ++ [Ev.releaseGuards]
        ∧ Ev.releaseGuards ∉ l) := by
  have hs := dineSuccess_false_of_secondaryFailed env h
  have hs' := dineSuccess_false_of_secondaryFailed env' h'
  refine ⟨dine_fixes_state_of_failure p env hs,
    dine_fixes_state_of_failure p env' hs', ?_,
    eat_not_mem_of_failure p env hs,
    eat_not_mem_of_failure p env' hs',
    dineEvents_release_last p env⟩
  rw [dine_fixes_state_of_failure p env hs,
    dine_fixes_state_of_failure p env' hs']

theorem dine_failure_uniform_witness :
    Philosopher.dine (Philosopher.new "a" 0 1 false)
        ⟨AcqResult.ok, fun _ => LockState.held⟩ = Philosopher.new "a" 0 1 false
    ∧ Philosopher.dine (Philosopher.new "a" 0 1 false)
        ⟨AcqResult.ok, fun _ => LockState.poisoned⟩ = Philosopher.new "a" 0 1 false := by
  have h := dine_failure_uniform (Philosopher.new "a" 0 1 false)
    ⟨AcqResult.ok, fun _ => LockState.held⟩
    ⟨AcqResult.ok, fun _ => LockState.poisoned⟩ (by decide) (by decide)
  exact ⟨h.1, h.2.1⟩

/-- Claim C10: when the unbounded primary acquisition itself returns the
`Poisoned` error, `dine` does not panic: the `(Ok, Ok)` pattern fails, the
cycle takes the failure branch, the counter is not incremented, no `eat`
happens, and the end-of-scope drop of the `locks` tuple still releases
every guard it holds — including one carried inside the error value. -/
theorem dine_primary_poisoned_no_panic (p : Philosopher) (env : DineEnv)
    (h : env.primary = AcqResult.poisoned) :
    dineSuccess env = false ∧ p.dine env = p ∧ Ev.eat ∉ dineEvents p env
    ∧ (∃ l, dineEvents p env = l ++ [Ev.releaseGuards]
        ∧ Ev.releaseGuards ∉ l) := by
  have hs := dineSuccess_false_of_primary_poisoned env h
  exact ⟨hs, dine_fixes_state_of_failure p env hs,
    eat_not_mem_of_failure p env hs, dineEvents_release_last p env⟩

theorem dine_primary_poisoned_no_panic_witness :
    dineSuccess ⟨AcqResult.poisoned, fun _ => LockState.free⟩ = false
    ∧ Philosopher.dine (Philosopher.new "a" 0 1 false)
        ⟨AcqResult.poisoned, fun _ => LockState.free⟩
      = Philosopher.new "a" 0 1 false := by
  have h := dine_primary_poisoned_no_panic (Philosopher.new "a" 0 1 false)
    ⟨AcqResult.poisoned, fun _ => LockState.free⟩ rfl
  exact ⟨h.1, h.2.1⟩

theorem loopStep_counter (p : Philosopher) (e : DineEnv) :
    (loopStep p e).counter =
      if p.counter = 6 then p.counter
      else if dineSuccess e then p.counter + 1 else p.counter := by
  unfold loopStep Philosopher.dine
  by_cases h6 : p.counter = 6
  · simp [h6]
  · cases hs : dineSuccess e <;> simp [h6, hs]

theorem loopTrace_counter_succ (envs : Nat → DineEnv) (p0 : Philosopher) (n : Nat) :
    (loopTrace envs p0 (n + 1)).counter =
      if (loopTrace envs p0 n).counter = 6 then (loopTrace envs p0 n).counter
      else if dineSuccess (envs n) then (loopTrace envs p0 n).counter + 1
      else (loopTrace envs p0 n).counter := by
  show (loopStep (loopTrace envs p0 n) (envs n)).counter = _
  exact loopStep_counter _ _

theorem loopTrace_counter_le (envs : Nat → DineEnv) (p0 : Philosopher)
    (h : p0.counter ≤ 6) (n : Nat) : (loopTrace envs p0 n).counter ≤ 6 := by
  induction n with
  | zero => exact h
  | succ n ih =>
    rw [loopTrace_counter_succ]
    by_cases h6 : (loopTrace envs p0 n).counter = 6
    · simp [h6]
    · cases hs : dineSuccess (envs n) <;> simp [h6, hs] <;> omega

theorem loopTrace_attains (envs : Nat → DineEnv) (p0 : Philosopher)
    (h0 : p0.counter = 0) (n v : Nat)
    (hv : v ≤ (loopTrace envs p0 n).counter) :
    ∃ m : Nat, m ≤ n ∧ (loopTrace envs p0 m).counter = v := by
  induction n with
  | zero =>
    refine ⟨0, Nat.le_refl 0, ?_⟩
    have h' : (loopTrace envs p0 0).counter = 0 := h0
    omega
  | succ n ih =>
    rw [loopTrace_counter_succ] at hv
    by_cases h6 : (loopTrace envs p0 n).counter = 6
    · rw [if_pos h6] at hv
      obtain ⟨m, hm, hmv⟩ := ih hv
      exact ⟨m, Nat.le_succ_of_le hm, hmv⟩
    · cases hs : dineSuccess (envs n)
      · simp [h6, hs] at hv
        obtain ⟨m, hm, hmv⟩ := ih hv
        exact ⟨m, Nat.le_succ_of_le hm, hmv⟩
      · simp [h6, hs] at hv
        rcases Nat.lt_or_ge v ((loopTrace envs p0 n).counter + 1) with hlt | hge
        · obtain ⟨m, hm, hmv⟩ := ih (by omega)
          exact ⟨m, Nat.le_succ_of_le hm, hmv⟩
        · have hveq : v = (loopTrace envs p0 n).counter + 1 := by omega
          refine ⟨n + 1, Nat.le_refl _, ?_⟩
          rw [loopTrace_counter_succ]
          simp [h6, hs]
          omega

theorem loopTrace_stop (envs : Nat → DineEnv) (p0 : Philosopher) (n : Nat)
    (h6 : (loopTrace envs p0 n).counter = 6) :
    loopTrace envs p0 (n + 1) = loopTrace envs p0 n := by
  show loopStep (loopTrace envs p0 n) (envs n) = loopTrace envs p0 n
  unfold loopStep
  simp [h6]

/-- Claim C2: for a freshly constructed philosopher (counter 0) and any run
of its thread loop, the counter starts at 0, changes by at most 1 per
iteration and never decreases, increases by exactly 1 precisely on the
iterations where the loop still runs (counter ≠ 6) and the dine cycle
succeeds, never exceeds 6, takes every value from 0 up to its current value
(so over time it takes exactly 0, 1, 2, …, 6), and the loop stops invoking
the cycle exactly upon reaching 6: from then on the state never changes. -/
theorem counter_lifecycle (p0 : Philosopher) (envs : Nat → DineEnv) (n : Nat)
    (h0 : p0.counter = 0) :
    (loopTrace envs p0 0).counter = 0
    ∧ ((loopTrace envs p0 (n + 1)).counter = (loopTrace envs p0 n).counter
       ∨ (loopTrace envs p0 (n + 1)).counter = (loopTrace envs p0 n).counter + 1)
    ∧ ((loopTrace envs p0 (n + 1)).counter = (loopTrace envs p0 n).counter + 1
       ↔ ((loopTrace envs p0 n).counter ≠ 6 ∧ dineSuccess (envs n) = true))
    ∧ (loopTrace envs p0 n).counter ≤ 6
    ∧ (∀ v : Nat, v ≤ (loopTrace envs p0 n).counter →
        ∃ m : Nat, m ≤ n ∧ (loopTrace envs p0 m).counter = v)
    ∧ ((loopTrace envs p0 n).counter = 6 →
        loopTrace envs p0 (n + 1) = loopTrace envs p0 n) := by
  refine ⟨h0, ?_, ?_, loopTrace_counter_le envs p0 (by omega) n,
    loopTrace_attains envs p0 h0 n, loopTrace_stop envs p0 n⟩
  · rw [loopTrace_counter_succ]
    by_cases h6 : (loopTrace envs p0 n).counter = 6
    · left
      simp [h6]
    · cases hs : dineSuccess (envs n)
      · left
        simp [h6, hs]
      · right
        simp [h6, hs]
  · rw [loopTrace_counter_succ]
    by_cases h6 : (loopTrace envs p0 n).counter = 6
    · simp [h6]
    · cases hs : dineSuccess (envs n) <;> simp [h6, hs]

theorem counter_lifecycle_witness :
    (Philosopher.new "a" 0 1 false).counter = 0
    ∧ (loopTrace (fun _ => ⟨AcqResult.ok, fun _ => LockState.free⟩)
        (Philosopher.new "a" 0 1 false) 0).counter ≤ 6 :=
  ⟨rfl, (counter_lifecycle (Philosopher.new "a" 0 1 false)
    (fun _ => ⟨AcqResult.ok, fun _ => LockState.free⟩) 0 rfl).2.2.2.1⟩

/-- Claim C9: `main` builds exactly 5 forks and 5 philosophers wired into a
simple cycle: philosopher `i` holds forks `i` (left) and `(i + 1) % 5`
(right), so each philosopher's right fork is the next philosopher's left
fork; every fork is shared by exactly two philosophers; and exactly one
philosopher — the one at index 4 — is left-handed. -/
theorem main_ring_structure :
    philosophers.length = 5 ∧ forks.length = 5
    ∧ philosophers.map (fun p => p.left_fork) = [0, 1, 2, 3, 4]
    ∧ philosophers.map (fun p => p.right_fork)
        = (List.range 5).map (fun i => (i + 1) % 5)
    ∧ (∀ i : Nat, i < 5 →
        (philosophers.map (fun p => p.right_fork))[i]?
          = (philosophers.map (fun p => p.left_fork))[(i + 1) % 5]?)
    ∧ philosophers.map (fun p => p.is_left_handed)
        = [false, false, false, false, true]
    ∧ philosophers.countP (fun p => p.is_left_handed) = 1
    ∧ (∀ f ∈ forks, philosophers.countP
        (fun p => p.left_fork == f || p.right_fork == f) = 2) := by
  decide

/-- Deadlock-avoidance core of the ring, stated structurally: the primary
forks of the five philosophers are `[1, 2, 3, 4, 4]`, so the
all-hold-their-primary configuration behind a permanent circular wait would
need fork 4 to be held by two philosophers at once, which mutual exclusion
forbids. -/
theorem primary_forks_collide :
    philosophers.map primaryFork = [1, 2, 3, 4, 4]
    ∧ ¬ (philosophers.map primaryFork).Nodup := by
  decide
